import Mathlib

/-!
Verification of the ingestion state machine and resilient fetch pipeline of the
youtube_library repository.  The registry layer (src/core/antenna_registry.py)
is embedded as pure functions over an association-list model of the Python
dict, with the clock passed explicitly; the transcript fetcher
(src/core/transcript_fetcher.py) is embedded as a deterministic loop over an
oracle describing what each network attempt would observe.
-/

namespace YTLib

/-! ### Data model (src/core/antenna_registry.py) -/

/-- Processing status flags for each video (class VideoStatus). -/
structure VideoStatus where
  metadata_fetched : Bool := false
  transcript_downloaded : Bool := false
  markdown_generated : Bool := false
  summarized : Bool := false
  deriving DecidableEq

/-- Complete metadata and status for one video (class VideoEntry).
`url` is modelled as a plain string. -/
structure VideoEntry where
  video_id : String
  title : String
  published_at : String
  duration_sec : Option Int := none
  view_count : Option Int := none
  like_count : Option Int := none
  comment_count : Option Int := none
  tags : Option (List String) := none
  category : Option String := none
  url : Option String := none
  transcript_source : Option String := none
  transcript_language : Option String := none
  path_md : Option String := none
  path_json : Option String := none
  status : VideoStatus := {}
  last_updated : Option String := none
  deriving DecidableEq

/-- Registry metadata (class ChannelHeader). -/
structure ChannelHeader where
  schema_version : String := "1.0.0"
  channel_id : String
  channel_name : Option String := none
  handle : Option String := none
  last_synced : Option String := none
  deriving DecidableEq

/-- Complete registry for one channel (class AntennaRegistry).  The Python
dict is modelled as an association list in insertion order. -/
structure AntennaRegistry where
  header : ChannelHeader
  videos : List (String × VideoEntry) := []
  deriving DecidableEq

/-- A discovered-video record (a Python dict handed to the merge engine);
every key may be absent, which `item.get` turns into None. -/
structure VideoItem where
  video_id : Option String := none
  title : Option String := none
  published_at : Option String := none
  duration_sec : Option Int := none
  view_count : Option Int := none
  like_count : Option Int := none
  comment_count : Option Int := none
  tags : Option (List String) := none
  category : Option String := none
  url : Option String := none
  transcript_source : Option String := none
  transcript_language : Option String := none
  path_md : Option String := none
  path_json : Option String := none
  status : Option VideoStatus := none
  deriving DecidableEq

/-- Dict read: `reg.videos.get(video_id)`. -/
def lookupVideo (videos : List (String × VideoEntry)) (vid : String) : Option VideoEntry :=
  (videos.find? (fun p => p.1 == vid)).map (fun p => p.2)

/-- Dict write: `reg.videos[video_id] = entry` — replaces the value in place
when the key exists, appends at the end otherwise. -/
def setVideo : List (String × VideoEntry) → String → VideoEntry → List (String × VideoEntry)
  | [], vid, e => [(vid, e)]
  | (k, v) :: tl, vid, e =>
      if k == vid then (vid, e) :: tl else (k, v) :: setVideo tl vid e

/-- Python `x if v is not None else y` used by the conservative merge loops. -/
def overwrite {α : Type} (incoming existing : Option α) : Option α :=
  match incoming with
  | some v => some v
  | none => existing

/-! ### Registry operations (src/core/antenna_registry.py) -/

/-- The merge branch of `_upsert_video`: every key of the `base` dict whose
value is not None is written onto the existing entry.  `video_id`, `title`,
`published_at` and `last_updated` are always non-None in `base` (the first
three through defaults), so they are always written. -/
def mergeEntry (entry : VideoEntry) (vid : String) (item : VideoItem) (now : String) :
    VideoEntry :=
  { entry with
    video_id := vid
    title := item.title.getD ""
    published_at := item.published_at.getD now
    duration_sec := overwrite item.duration_sec entry.duration_sec
    view_count := overwrite item.view_count entry.view_count
    like_count := overwrite item.like_count entry.like_count
    comment_count := overwrite item.comment_count entry.comment_count
    tags := overwrite item.tags entry.tags
    category := overwrite item.category entry.category
    url := overwrite item.url entry.url
    transcript_source := overwrite item.transcript_source entry.transcript_source
    transcript_language := overwrite item.transcript_language entry.transcript_language
    path_md := overwrite item.path_md entry.path_md
    path_json := overwrite item.path_json entry.path_json
    last_updated := some now }

/-- Function `_upsert_video` after the `item["video_id"]` read has succeeded with
`vid` (a missing key raises KeyError at the call sites that pass raw items). -/
def upsert_video (reg : AntennaRegistry) (vid : String) (item : VideoItem)
    (init_status : Bool) (now : String) : AntennaRegistry :=
  match lookupVideo reg.videos vid with
  | none =>
      let st : VideoStatus := if init_status then {} else item.status.getD {}
      { reg with
        videos := setVideo reg.videos vid
          { video_id := vid
            title := item.title.getD ""
            published_at := item.published_at.getD now
            duration_sec := item.duration_sec
            view_count := item.view_count
            like_count := item.like_count
            comment_count := item.comment_count
            tags := item.tags
            category := item.category
            url := item.url
            transcript_source := item.transcript_source
            transcript_language := item.transcript_language
            path_md := item.path_md
            path_json := item.path_json
            status := st
            last_updated := some now } }
  | some entry =>
      { reg with videos := setVideo reg.videos vid (mergeEntry entry vid item now) }

/-- Function `_refresh_metadata`: update the nine descriptive metadata fields where
the incoming value is not None; status flags and local paths untouched. -/
def refreshEntry (entry : VideoEntry) (item : VideoItem) (now : String) : VideoEntry :=
  { entry with
    title := item.title.getD entry.title
    published_at := item.published_at.getD entry.published_at
    duration_sec := overwrite item.duration_sec entry.duration_sec
    view_count := overwrite item.view_count entry.view_count
    like_count := overwrite item.like_count entry.like_count
    comment_count := overwrite item.comment_count entry.comment_count
    tags := overwrite item.tags entry.tags
    category := overwrite item.category entry.category
    url := overwrite item.url entry.url
    last_updated := some now }

/-- Function `_refresh_metadata` at registry level: returns the registry unchanged
when `video_id` is absent or falsy or not a key (`if not video_id or
video_id not in reg.videos: return`). -/
def refresh_metadata (reg : AntennaRegistry) (item : VideoItem) (now : String) :
    AntennaRegistry :=
  match item.video_id with
  | none => reg
  | some vid =>
      if vid = "" then reg
      else
        match lookupVideo reg.videos vid with
        | none => reg
        | some entry =>
            { reg with videos := setVideo reg.videos vid (refreshEntry entry item now) }

/-- One iteration of the loop body of `sync_registry`, threading the
registry and `new_count`; a record with a falsy `video_id` is skipped. -/
def syncStep (now : String) (acc : AntennaRegistry × Nat) (item : VideoItem) :
    AntennaRegistry × Nat :=
  match item.video_id with
  | none => acc
  | some vid =>
      if vid = "" then acc
      else if (lookupVideo acc.1.videos vid).isNone then
        (upsert_video acc.1 vid item true now, acc.2 + 1)
      else
        (refresh_metadata acc.1 item now, acc.2)

/-- Function `sync_registry` on an in-memory registry (load and save are identity on
the registry value; the clock is `now`). -/
def sync_registry (reg : AntennaRegistry) (discovered : List VideoItem)
    (touch_last_synced : Bool) (now : String) : AntennaRegistry :=
  let res := discovered.foldl (syncStep now) (reg, 0)
  if touch_last_synced && decide (0 < res.2) then
    { res.1 with header := { res.1.header with last_synced := some now } }
  else res.1

/-- The `for item in initial_videos` loop of `init_registry`: each record is
upserted with `initialize_status=True`; the `item["video_id"]` read raises
KeyError on a record without that key, aborting the loop. -/
def initUpsertLoop (now : String) :
    AntennaRegistry → List VideoItem → Except String AntennaRegistry
  | reg, [] => .ok reg
  | reg, item :: tl =>
      match item.video_id with
      | none => .error "KeyError: video_id"
      | some vid => initUpsertLoop now (upsert_video reg vid item true now) tl

/-- Function `init_registry`: returns the existing registry when the store already
exists; otherwise builds a fresh one and upserts the initial videos with
`initialize_status=True`. -/
def init_registry (existing : Option AntennaRegistry) (channel_id : String)
    (channel_name handle : Option String) (initial_videos : List VideoItem)
    (now : String) : Except String AntennaRegistry :=
  match existing with
  | some reg => .ok reg
  | none =>
      let reg0 : AntennaRegistry :=
        { header :=
            { schema_version := "1.0.0"
              channel_id := channel_id
              channel_name := channel_name
              handle := handle
              last_synced := some now }
          videos := [] }
      initUpsertLoop now reg0 initial_videos

/-- The if/elif chain selecting pending entries in `list_pending`. -/
def pendingPred (need : String) (v : VideoEntry) : Bool :=
  if need == "transcript" then !v.status.transcript_downloaded
  else if need == "markdown" then
    v.status.transcript_downloaded && !v.status.markdown_generated
  else if need == "summary" then
    v.status.markdown_generated && !v.status.summarized
  else false

/-- The sort key ordering of `list_pending`:
`key=lambda x: (x.published_at, x.title)`, compared lexicographically. -/
def keyLe (a b : VideoEntry) : Prop :=
  a.published_at < b.published_at ∨
    (a.published_at = b.published_at ∧ a.title ≤ b.title)

instance : DecidableRel keyLe := fun a b => by
  unfold keyLe; infer_instance

/-- Function `list_pending` on an in-memory registry: filter then stable sort by
`(published_at, title)`. -/
def list_pending (reg : AntennaRegistry) (need : String) : List VideoEntry :=
  ((reg.videos.map (fun p => p.2)).filter (pendingPred need)).insertionSort keyLe

/-- Keyword arguments of `update_status`. -/
structure StatusArgs where
  transcript_downloaded : Option Bool := none
  markdown_generated : Option Bool := none
  summarized : Option Bool := none
  path_md : Option String := none
  path_json : Option String := none
  transcript_source : Option String := none
  transcript_language : Option String := none
  deriving DecidableEq

/-- The field updates performed by `update_status` on the found entry. -/
def applyStatusArgs (v : VideoEntry) (args : StatusArgs) (now : String) : VideoEntry :=
  { v with
    status :=
      { v.status with
        transcript_downloaded :=
          args.transcript_downloaded.getD v.status.transcript_downloaded
        markdown_generated := args.markdown_generated.getD v.status.markdown_generated
        summarized := args.summarized.getD v.status.summarized }
    path_md := overwrite args.path_md v.path_md
    path_json := overwrite args.path_json v.path_json
    transcript_source := overwrite args.transcript_source v.transcript_source
    transcript_language := overwrite args.transcript_language v.transcript_language
    last_updated := some now }

/-- Function `update_status` as a transition on the stored registry: the first
component is the outcome (KeyError modelled as `Except.error`), the second
the list of `save_registry` writes performed, in order. -/
def update_status (disk : AntennaRegistry) (vid : String) (args : StatusArgs)
    (now : String) : Except String AntennaRegistry × List AntennaRegistry :=
  match lookupVideo disk.videos vid with
  | none => (.error ("Video " ++ vid ++ " not in registry. Run sync first."), [])
  | some v =>
      let v2 := applyStatusArgs v args now
      let reg2 : AntennaRegistry :=
        { header := { disk.header with last_synced := some now }
          videos := setVideo disk.videos vid v2 }
      (.ok reg2, [reg2])

/-- The content of the store after a sequence of full-image writes. -/
def finalDisk (disk : AntennaRegistry) (writes : List AntennaRegistry) : AntennaRegistry :=
  writes.foldl (fun _ w => w) disk

/-! ### Transcript fetcher (src/core/transcript_fetcher.py)

The youtube_transcript_api `TranscriptList` keeps manually created and
generated transcripts in two dicts keyed by language code; iteration yields
all manual transcripts first, then all generated ones, and
`find_transcript([code])` checks the manual dict before the generated one.
Each variant is modelled with the plaintext its successful fetch yields. -/

/-- One transcript variant of a video, with the text a fetch returns. -/
structure TranscriptVariant where
  language_code : String
  text : String
  deriving DecidableEq

/-- The listing returned by `api.list(video_id)`. -/
structure TranscriptList where
  manual : List TranscriptVariant
  generated : List TranscriptVariant
  deriving DecidableEq

/-- Look a language code up in one of the two variant collections. -/
def findVariant (l : List TranscriptVariant) (code : String) : Option TranscriptVariant :=
  l.find? (fun t => t.language_code == code)

/-- Method `transcript_list.find_manually_created_transcript([code])`. -/
def findManualTranscript (tl : TranscriptList) (code : String) : Option TranscriptVariant :=
  findVariant tl.manual code

/-- Method `transcript_list.find_generated_transcript([code])`. -/
def findGeneratedTranscript (tl : TranscriptList) (code : String) : Option TranscriptVariant :=
  findVariant tl.generated code

/-- Method `api.fetch(video_id, languages=[code])`: resolves the code with manual
variants preferred over generated ones and returns the joined plaintext. -/
def apiFetchText (tl : TranscriptList) (code : String) : Option String :=
  match findVariant tl.manual code with
  | some t => some t.text
  | none => (findVariant tl.generated code).map (fun t => t.text)

/-- Iteration order of a `TranscriptList`: manual variants first, then
generated ones; the boolean is the variant's `is_generated`. -/
def listingOrder (tl : TranscriptList) : List (TranscriptVariant × Bool) :=
  tl.manual.map (fun t => (t, false)) ++ tl.generated.map (fun t => (t, true))

/-- The body of `_fetch_transcript_internal` once `api.list` has succeeded:
step 1 tries manual variants per preferred language, step 2 generated
variants per preferred language, step 3 walks the listing order; a failed
inner fetch is caught and iteration continues. -/
def fetchFromList (tl : TranscriptList) (languages : List String) :
    Option (String × String × String) :=
  match languages.findSome? (fun code =>
      match findManualTranscript tl code with
      | none => none
      | some t => (apiFetchText tl code).map (fun x => (x, "manual", t.language_code))) with
  | some r => some r
  | none =>
    match languages.findSome? (fun code =>
        match findGeneratedTranscript tl code with
        | none => none
        | some t =>
            (apiFetchText tl code).map (fun x => (x, "auto-generated", t.language_code))) with
    | some r => some r
    | none =>
      (listingOrder tl).findSome? (fun p =>
        (apiFetchText tl p.1.language_code).map (fun x =>
          (x, if p.2 then "auto-generated" else "manual", p.1.language_code)))

/-- What one attempt of `_fetch_transcript_internal` observes at the
`api.list` boundary. -/
inductive ListingOutcome
  | ok (tl : TranscriptList)
  | transcriptsDisabled
  | noTranscriptFound
  | couldNotRetrieve
  | videoUnavailable
  | blocked
  | otherError
  deriving DecidableEq

/-- Result of one call of `_fetch_transcript_internal`: either a returned
triple (with `none` standing for the `(None, None, None)` tuple) or an
IpBlocked/RequestBlocked exception re-raised to the retry loop. -/
inductive InternalResult
  | returned (r : Option (String × String × String))
  | raisedBlock
  deriving DecidableEq

/-- Function `_fetch_transcript_internal`: every terminal-absence or unknown error is
caught and turned into the `(None, None, None)` return; block signals are
re-raised. -/
def fetch_transcript_internal (lst : ListingOutcome) (languages : List String) :
    InternalResult :=
  match lst with
  | .ok tl => .returned (fetchFromList tl languages)
  | .blocked => .raisedBlock
  | _ => .returned none

/-- Module constants of transcript_fetcher.py, as exact rationals. -/
def BASE_DELAY : ℚ := 2

/-- Ceiling for the exponential backoff delay. -/
def MAX_DELAY : ℚ := 60

/-- Backoff multiplier. -/
def BACKOFF_MULTIPLIER : ℚ := 2

/-- Outcome of one run of `fetch_transcript_text`: the returned triple, the
number of `_fetch_transcript_internal` invocations, and the sleeps performed
in order (pre-jitter base durations handed to `_delay_with_jitter`). -/
structure FetchRun where
  result : Option (String × String × String)
  attempts : Nat
  sleeps : List ℚ
  deriving DecidableEq

/-- The retry loop of `fetch_transcript_text`.  `oracle i` is what the
network would make attempt `i` observe.  Fuel counts the remaining loop
iterations; the loop runs `attempt` from 0 to `max_retries`. -/
def fetchGo (oracle : Nat → ListingOutcome) (languages : List String)
    (max_retries : Nat) :
    Nat → Nat → ℚ → List ℚ → Nat → FetchRun
  | 0, _, _, sleeps, attempts => ⟨none, attempts, sleeps⟩
  | fuel + 1, attempt, delay, sleeps, attempts =>
      let sleeps2 := if attempt == 0 then sleeps ++ [BASE_DELAY] else sleeps ++ [delay]
      let delay2 :=
        if attempt == 0 then delay else min (delay * BACKOFF_MULTIPLIER) MAX_DELAY
      match fetch_transcript_internal (oracle attempt) languages with
      | .returned r => ⟨r, attempts + 1, sleeps2⟩
      | .raisedBlock =>
          if attempt < max_retries then
            fetchGo oracle languages max_retries fuel (attempt + 1) delay2 sleeps2
              (attempts + 1)
          else ⟨none, attempts + 1, sleeps2⟩

/-- Function `fetch_transcript_text(video_id, languages, max_retries, initial_delay)`
with the network abstracted by `oracle`. -/
def fetch_transcript_text (oracle : Nat → ListingOutcome) (languages : List String)
    (max_retries : Nat) (initial_delay : ℚ) : FetchRun :=
  fetchGo oracle languages max_retries (max_retries + 1) 0 initial_delay [] 0

/-! ### Atomic store write (src/core/antenna_registry.py, _atomic_write_json)

The file-system effect of `_atomic_write_json` is modelled as a step trace
over a state holding the canonical file and the temporary file; a crash is
an arbitrary split of the trace, with only the executed part applied. -/

/-- File-system state relevant to one atomic write. -/
structure FSState where
  canonical : Option String
  temp : Option String
  deriving DecidableEq

/-- The primitive effects `_atomic_write_json` performs, in order:
create parent directories, open/truncate the temp file, append the
serialized image to it (possibly in several chunks), fsync it, and rename
it over the canonical path. -/
inductive WriteStep
  | mkdirParent
  | openTemp
  | writeChunk (c : String)
  | fsyncTemp
  | renameTempToTarget
  deriving DecidableEq

/-- Effect of one step on the file-system state.  The rename is atomic: it
swaps the whole temp content into the canonical slot in one step. -/
def applyStep (s : FSState) : WriteStep → FSState
  | .mkdirParent => s
  | .openTemp => { s with temp := some "" }
  | .writeChunk c => { s with temp := some ((s.temp.getD "") ++ c) }
  | .fsyncTemp => s
  | .renameTempToTarget => { canonical := s.temp, temp := none }

/-- Run a list of steps. -/
def runSteps (s : FSState) (steps : List WriteStep) : FSState :=
  steps.foldl applyStep s

/-- The step trace of `_atomic_write_json` writing an image serialized as
the given chunks. -/
def atomicWriteSteps (chunks : List String) : List WriteStep :=
  [.mkdirParent, .openTemp] ++ chunks.map .writeChunk ++
    [.fsyncTemp, .renameTempToTarget]

/-! ### Helper lemmas on the dict model -/

theorem lookupVideo_nil (vid : String) : lookupVideo [] vid = none := rfl

theorem lookupVideo_cons (k : String) (v : VideoEntry) (tl : List (String × VideoEntry))
    (vid : String) :
    lookupVideo ((k, v) :: tl) vid = if k = vid then some v else lookupVideo tl vid := by
  by_cases h : k = vid <;> simp [lookupVideo, List.find?_cons, h]

theorem lookupVideo_setVideo_self (vs : List (String × VideoEntry)) (vid : String)
    (e : VideoEntry) : lookupVideo (setVideo vs vid e) vid = some e := by
  induction vs with
  | nil => simp [setVideo, lookupVideo_cons, lookupVideo_nil]
  | cons p tl ih =>
      obtain ⟨k, v⟩ := p
      by_cases h : k = vid
      · subst h
        simp [setVideo, lookupVideo_cons]
      · simp [setVideo, h, lookupVideo_cons, ih]

theorem lookupVideo_setVideo_ne (vs : List (String × VideoEntry)) (vid vid2 : String)
    (e : VideoEntry) (h : vid2 ≠ vid) :
    lookupVideo (setVideo vs vid e) vid2 = lookupVideo vs vid2 := by
  induction vs with
  | nil => simp [setVideo, lookupVideo_cons, lookupVideo_nil, Ne.symm h]
  | cons p tl ih =>
      obtain ⟨k, v⟩ := p
      by_cases hk : k = vid
      · subst hk
        simp [setVideo, lookupVideo_cons, Ne.symm h]
      · simp [setVideo, hk, lookupVideo_cons, ih]

/-- Both branches of `_upsert_video` write only at key `v`. -/
theorem upsert_video_lookup_ne (reg : AntennaRegistry) (v : String) (item : VideoItem)
    (init_status : Bool) (now : String) (vid : String) (h : vid ≠ v) :
    lookupVideo (upsert_video reg v item init_status now).videos vid =
      lookupVideo reg.videos vid := by
  unfold upsert_video
  cases lookupVideo reg.videos v <;>
    simp [lookupVideo_setVideo_ne _ _ _ _ h]

theorem refreshEntry_status (entry : VideoEntry) (item : VideoItem) (now : String) :
    (refreshEntry entry item now).status = entry.status := rfl

theorem refreshEntry_path_md (entry : VideoEntry) (item : VideoItem) (now : String) :
    (refreshEntry entry item now).path_md = entry.path_md := rfl

theorem refreshEntry_path_json (entry : VideoEntry) (item : VideoItem) (now : String) :
    (refreshEntry entry item now).path_json = entry.path_json := rfl

/-- One `sync_registry` loop iteration preserves presence-with-status of any
entry. -/
theorem syncStep_preserves_status (now : String) (item : VideoItem)
    (r : AntennaRegistry × Nat) (vid : String) (st : VideoStatus)
    (h : ∃ e, lookupVideo r.1.videos vid = some e ∧ e.status = st) :
    ∃ e, lookupVideo (syncStep now r item).1.videos vid = some e ∧ e.status = st := by
  obtain ⟨e, he, hst⟩ := h
  unfold syncStep
  cases hv : item.video_id with
  | none => exact ⟨e, he, hst⟩
  | some v =>
      by_cases hemp : v = ""
      · simpa [hemp] using ⟨e, he, hst⟩
      · simp only [hemp, if_false]
        by_cases habs : (lookupVideo r.1.videos v).isNone = true
        · -- new-insert path: v cannot be vid
          have hne : vid ≠ v := by
            intro hh
            subst hh
            rw [he] at habs
            simp at habs
          simp only [habs, if_true]
          exact ⟨e, by rw [upsert_video_lookup_ne _ _ _ _ _ _ hne]; exact he, hst⟩
        · -- metadata-refresh path
          rw [Bool.not_eq_true] at habs
          simp only [habs, Bool.false_eq_true, if_false]
          unfold refresh_metadata
          rw [hv]
          simp only [hemp, if_false]
          cases hfound : lookupVideo r.1.videos v with
          | none => exact ⟨e, he, hst⟩
          | some entry2 =>
              dsimp only
              by_cases heq : vid = v
              · subst heq
                rw [he] at hfound
                cases hfound
                refine ⟨refreshEntry e item now, ?_, by rw [refreshEntry_status, hst]⟩
                simp [lookupVideo_setVideo_self]
              · refine ⟨e, ?_, hst⟩
                rw [lookupVideo_setVideo_ne _ _ _ _ heq]
                exact he

/-- The whole merge loop preserves presence-with-status of any entry. -/
theorem syncFold_preserves_status (now : String) (items : List VideoItem) :
    ∀ (r : AntennaRegistry × Nat) (vid : String) (st : VideoStatus),
      (∃ e, lookupVideo r.1.videos vid = some e ∧ e.status = st) →
      ∃ e, lookupVideo (items.foldl (syncStep now) r).1.videos vid = some e ∧
        e.status = st := by
  induction items with
  | nil => intro r vid st h; simpa using h
  | cons item tl ih =>
      intro r vid st h
      simpa [List.foldl_cons] using
        ih (syncStep now r item) vid st (syncStep_preserves_status now item r vid st h)

/-! ### Claim C1 -/

/-- C1: for every stored registry and every sequence of discovered video
records, `sync_registry` never changes the status flags of an entry that was
already present: the entry is still present afterwards with an identical
`status` record (hence every flag that was true is still true and
unchanged), whichever mix of new-insert and metadata-refresh steps the merge
performs. -/
theorem C1_sync_registry_no_status_regression
    (reg : AntennaRegistry) (items : List VideoItem) (touch : Bool) (now : String)
    (vid : String) (entry : VideoEntry)
    (h : lookupVideo reg.videos vid = some entry) :
    ∃ e2, lookupVideo (sync_registry reg items touch now).videos vid = some e2 ∧
      e2.status = entry.status := by
  have hmain :=
    syncFold_preserves_status now items (reg, 0) vid entry.status ⟨entry, h, rfl⟩
  unfold sync_registry
  dsimp only
  split
  · exact hmain
  · exact hmain

/-- Support data for the concrete witnesses: an entry with all flags true. -/
def wEntry : VideoEntry :=
  { video_id := "v1", title := "A", published_at := "2024-01-01",
    path_md := some "v1.md", path_json := some "v1.json",
    status := { metadata_fetched := true, transcript_downloaded := true,
                markdown_generated := true, summarized := true } }

/-- A one-entry registry holding `wEntry`. -/
def wReg : AntennaRegistry :=
  { header := { channel_id := "c1" }, videos := [("v1", wEntry)] }

/-- A discovered record matching `wEntry` plus a brand-new one. -/
def wItem : VideoItem :=
  { video_id := some "v1", title := some "B", published_at := some "2024-01-02" }

/-- A discovered record with an id unknown to `wReg`. -/
def wItemNew : VideoItem :=
  { video_id := some "v2", title := some "C", published_at := some "2024-02-02" }

theorem C1_witness :
    lookupVideo wReg.videos "v1" = some wEntry ∧
      ∃ e2, lookupVideo (sync_registry wReg [wItem, wItemNew] true "T").videos "v1" =
          some e2 ∧ e2.status = wEntry.status :=
  ⟨by decide,
    C1_sync_registry_no_status_regression wReg [wItem, wItemNew] true "T" "v1" wEntry
      (by decide)⟩

/-! ### Claim C3 -/

theorem mergeEntry_status (entry : VideoEntry) (vid : String) (item : VideoItem)
    (now : String) : (mergeEntry entry vid item now).status = entry.status := rfl

/-- A fresh upsert with `initialize_status=True` stores the all-false status,
whatever status the record carries. -/
theorem upsert_video_new_status (reg : AntennaRegistry) (v : String) (item : VideoItem)
    (now : String) (h : lookupVideo reg.videos v = none) :
    ∃ e, lookupVideo (upsert_video reg v item true now).videos v = some e ∧
      e.status = {} := by
  unfold upsert_video
  rw [h]
  exact ⟨_, lookupVideo_setVideo_self _ _ _, rfl⟩

/-- Invariant used for the sync path of C3: the key is either absent or its
entry has the all-false status. -/
def FreshOrAllFalse (r : AntennaRegistry) (vid : String) : Prop :=
  lookupVideo r.videos vid = none ∨
    ∃ e, lookupVideo r.videos vid = some e ∧ e.status = {}

theorem syncStep_fresh_or_all_false (now : String) (item : VideoItem)
    (r : AntennaRegistry × Nat) (vid : String) (h : FreshOrAllFalse r.1 vid) :
    FreshOrAllFalse (syncStep now r item).1 vid := by
  unfold syncStep
  cases hv : item.video_id with
  | none => exact h
  | some v =>
      by_cases hemp : v = ""
      · simpa [hemp] using h
      · simp only [hemp, if_false]
        by_cases habs : (lookupVideo r.1.videos v).isNone = true
        · simp only [habs, if_true]
          by_cases heq : vid = v
          · subst heq
            right
            exact upsert_video_new_status r.1 vid item now
              (Option.isNone_iff_eq_none.mp habs)
          · unfold FreshOrAllFalse
            rw [upsert_video_lookup_ne _ _ _ _ _ _ heq]
            exact h
        · rw [Bool.not_eq_true] at habs
          simp only [habs, Bool.false_eq_true, if_false]
          unfold refresh_metadata
          rw [hv]
          simp only [hemp, if_false]
          cases hfound : lookupVideo r.1.videos v with
          | none => exact h
          | some entry2 =>
              dsimp only
              by_cases heq : vid = v
              · subst heq
                cases h with
                | inl habsent => rw [habsent] at hfound; cases hfound
                | inr hsome =>
                    obtain ⟨e, he, hst⟩ := hsome
                    rw [he] at hfound
                    cases hfound
                    right
                    refine ⟨_, lookupVideo_setVideo_self _ _ _, ?_⟩
                    rw [refreshEntry_status]
                    assumption
              · unfold FreshOrAllFalse
                rw [lookupVideo_setVideo_ne _ _ _ _ heq]
                exact h

theorem syncFold_fresh_or_all_false (now : String) (items : List VideoItem) :
    ∀ (r : AntennaRegistry × Nat) (vid : String), FreshOrAllFalse r.1 vid →
      FreshOrAllFalse (items.foldl (syncStep now) r).1 vid := by
  induction items with
  | nil => intro r vid h; simpa using h
  | cons item tl ih =>
      intro r vid h
      simpa [List.foldl_cons] using
        ih (syncStep now r item) vid (syncStep_fresh_or_all_false now item r vid h)

/-- Invariant used for the init path of C3: every stored entry has the
all-false status. -/
def AllStatusFalse (r : AntennaRegistry) : Prop :=
  ∀ vid e, lookupVideo r.videos vid = some e → e.status = {}

theorem upsert_video_all_false (reg : AntennaRegistry) (v : String) (item : VideoItem)
    (now : String) (h : AllStatusFalse reg) :
    AllStatusFalse (upsert_video reg v item true now) := by
  intro vid e he
  by_cases heq : vid = v
  · subst heq
    unfold upsert_video at he
    cases hfound : lookupVideo reg.videos vid with
    | none =>
        rw [hfound] at he
        dsimp only at he
        rw [lookupVideo_setVideo_self] at he
        cases he
        rfl
    | some entry =>
        rw [hfound] at he
        dsimp only at he
        rw [lookupVideo_setVideo_self] at he
        cases he
        rw [mergeEntry_status]
        exact h vid entry hfound
  · rw [upsert_video_lookup_ne _ _ _ _ _ _ heq] at he
    exact h vid e he

theorem initUpsertLoop_all_false (now : String) (items : List VideoItem) :
    ∀ (reg0 reg : AntennaRegistry), initUpsertLoop now reg0 items = .ok reg →
      AllStatusFalse reg0 → AllStatusFalse reg := by
  induction items with
  | nil =>
      intro reg0 reg hok h0
      unfold initUpsertLoop at hok
      cases hok
      exact h0
  | cons item tl ih =>
      intro reg0 reg hok h0
      unfold initUpsertLoop at hok
      cases hv : item.video_id with
      | none => rw [hv] at hok; cases hok
      | some vid =>
          rw [hv] at hok
          exact ih _ reg hok (upsert_video_all_false reg0 vid item now h0)

/-- C3 counterexample: `init_registry` with a bulk record that carries a
pre-set status (`transcript_downloaded=True`) stores the all-false status
instead of the supplied one, because `_upsert_video` is called with
`initialize_status=True` which discards `item["status"]`. -/
def c3Item : VideoItem :=
  { video_id := some "v1", title := some "A", published_at := some "2024-01-01",
    status := some { transcript_downloaded := true } }

/-- The entry `init_registry` actually stores for `c3Item`. -/
def c3Entry : VideoEntry :=
  { video_id := "v1", title := "A", published_at := "2024-01-01",
    status := {}, last_updated := some "T" }

/-- The registry `init_registry` produces from `[c3Item]`. -/
def c3Reg : AntennaRegistry :=
  { header := { schema_version := "1.0.0", channel_id := "c1", last_synced := some "T" },
    videos := [("v1", c3Entry)] }

theorem C3_counterexample :
    init_registry none "c1" none none [c3Item] "T" = .ok c3Reg ∧
    (lookupVideo c3Reg.videos "v1").map (fun e => e.status) = some {} ∧
    c3Item.status = some { transcript_downloaded := true } ∧
    ({} : VideoStatus) ≠ { transcript_downloaded := true } :=
  ⟨by rfl, by decide, by decide, by decide⟩

/-- C3 (amended): on every merge path a record whose id is not yet present
is inserted with all four status flags false, unconditionally — a pre-set
status supplied by the caller for bulk initialization is ignored, because
both `sync_registry` and `init_registry` upsert with
`initialize_status=True`. -/
theorem C3_new_entries_all_false :
    (∀ (reg : AntennaRegistry) (items : List VideoItem) (touch : Bool)
       (now vid : String) (e : VideoEntry),
       lookupVideo reg.videos vid = none →
       lookupVideo (sync_registry reg items touch now).videos vid = some e →
       e.status = {}) ∧
    (∀ (cid : String) (cname ch : Option String) (items : List VideoItem)
       (now : String) (reg : AntennaRegistry) (vid : String) (e : VideoEntry),
       init_registry none cid cname ch items now = .ok reg →
       lookupVideo reg.videos vid = some e →
       e.status = {}) := by
  constructor
  · intro reg items touch now vid e habsent hfinal
    have hinv := syncFold_fresh_or_all_false now items (reg, 0) vid (Or.inl habsent)
    have hfinal2 :
        lookupVideo (List.foldl (syncStep now) (reg, 0) items).1.videos vid = some e := by
      revert hfinal
      unfold sync_registry
      dsimp only
      split
      · exact fun hh => hh
      · exact fun hh => hh
    cases hinv with
    | inl hnone => rw [hnone] at hfinal2; cases hfinal2
    | inr hsome =>
        obtain ⟨e2, he2, hst⟩ := hsome
        rw [he2] at hfinal2
        cases hfinal2
        exact hst
  · intro cid cname ch items now reg vid e hok hlook
    have h0 : AllStatusFalse
        { header :=
            { schema_version := "1.0.0", channel_id := cid, channel_name := cname,
              handle := ch, last_synced := some now },
          videos := [] } := by
      intro vid2 e2 he2
      rw [lookupVideo_nil] at he2
      cases he2
    exact initUpsertLoop_all_false now items _ reg hok h0 vid e hlook

/-- The new entry `sync_registry` inserts for `wItemNew` at time T. -/
def wNewEntry : VideoEntry :=
  { video_id := "v2", title := "C", published_at := "2024-02-02",
    status := {}, last_updated := some "T" }

theorem C3_witness :
    (lookupVideo wReg.videos "v2" = none ∧
      lookupVideo (sync_registry wReg [wItem, wItemNew] true "T").videos "v2" =
        some wNewEntry ∧
      wNewEntry.status = {}) ∧
    (init_registry none "c1" none none [c3Item] "T" = .ok c3Reg ∧
      lookupVideo c3Reg.videos "v1" = some c3Entry ∧
      c3Entry.status = {}) :=
  ⟨⟨by decide, by decide,
      C3_new_entries_all_false.1 wReg [wItem, wItemNew] true "T" "v2" wNewEntry
        (by decide) (by decide)⟩,
    ⟨by rfl, by decide,
      C3_new_entries_all_false.2 "c1" none none [c3Item] "T" c3Reg "v1" c3Entry
        (by rfl) (by decide)⟩⟩

/-! ### Claim C6 -/

/-- C6: on the metadata-refresh path, each of the nine descriptive metadata
fields of the touched entry is overwritten exactly when the incoming value
is present and kept otherwise (`overwrite` is `incoming if present else
existing`, and `getD` the same for the two non-optional fields), while the
status flags and the local output paths are unchanged. -/
theorem C6_refresh_metadata_frame
    (reg : AntennaRegistry) (item : VideoItem) (now vid : String) (entry : VideoEntry)
    (hid : item.video_id = some vid) (hne : vid ≠ "")
    (hfound : lookupVideo reg.videos vid = some entry) :
    ∃ e2, lookupVideo (refresh_metadata reg item now).videos vid = some e2 ∧
      e2.status = entry.status ∧
      e2.path_md = entry.path_md ∧
      e2.path_json = entry.path_json ∧
      e2.title = item.title.getD entry.title ∧
      e2.published_at = item.published_at.getD entry.published_at ∧
      e2.duration_sec = overwrite item.duration_sec entry.duration_sec ∧
      e2.view_count = overwrite item.view_count entry.view_count ∧
      e2.like_count = overwrite item.like_count entry.like_count ∧
      e2.comment_count = overwrite item.comment_count entry.comment_count ∧
      e2.tags = overwrite item.tags entry.tags ∧
      e2.category = overwrite item.category entry.category ∧
      e2.url = overwrite item.url entry.url := by
  unfold refresh_metadata
  rw [hid]
  dsimp only
  rw [if_neg hne]
  rw [hfound]
  exact ⟨refreshEntry entry item now, lookupVideo_setVideo_self _ _ _,
    rfl, rfl, rfl, rfl, rfl, rfl, rfl, rfl, rfl, rfl, rfl, rfl⟩

theorem C6_witness :
    wItem.video_id = some "v1" ∧ ("v1" : String) ≠ "" ∧
      lookupVideo wReg.videos "v1" = some wEntry ∧
      ∃ e2, lookupVideo (refresh_metadata wReg wItem "T").videos "v1" = some e2 ∧
        e2.status = wEntry.status ∧
        e2.path_md = wEntry.path_md ∧
        e2.path_json = wEntry.path_json ∧
        e2.title = wItem.title.getD wEntry.title ∧
        e2.published_at = wItem.published_at.getD wEntry.published_at ∧
        e2.duration_sec = overwrite wItem.duration_sec wEntry.duration_sec ∧
        e2.view_count = overwrite wItem.view_count wEntry.view_count ∧
        e2.like_count = overwrite wItem.like_count wEntry.like_count ∧
        e2.comment_count = overwrite wItem.comment_count wEntry.comment_count ∧
        e2.tags = overwrite wItem.tags wEntry.tags ∧
        e2.category = overwrite wItem.category wEntry.category ∧
        e2.url = overwrite wItem.url wEntry.url :=
  ⟨by decide, by decide, by decide,
    C6_refresh_metadata_frame wReg wItem "T" "v1" wEntry (by decide) (by decide)
      (by decide)⟩

/-! ### Claim C10 -/

/-- C10: when the video id is not a key of the stored registry,
`update_status` raises KeyError before performing any mutation or save: the
outcome is the error, the list of writes is empty, and therefore the store
content is exactly what it was before the call. -/
theorem C10_update_status_missing_atomic
    (disk : AntennaRegistry) (vid : String) (args : StatusArgs) (now : String)
    (h : lookupVideo disk.videos vid = none) :
    (update_status disk vid args now).1 =
        .error ("Video " ++ vid ++ " not in registry. Run sync first.") ∧
      (update_status disk vid args now).2 = [] ∧
      finalDisk disk (update_status disk vid args now).2 = disk := by
  unfold update_status
  rw [h]
  exact ⟨rfl, rfl, rfl⟩

theorem C10_witness :
    lookupVideo wReg.videos "nope" = none ∧
      (update_status wReg "nope" {} "T").1 =
        .error ("Video " ++ "nope" ++ " not in registry. Run sync first.") ∧
      (update_status wReg "nope" {} "T").2 = [] ∧
      finalDisk wReg (update_status wReg "nope" {} "T").2 = wReg :=
  ⟨by decide, C10_update_status_missing_atomic wReg "nope" {} "T" (by decide)⟩

/-! ### Claim C7 -/

/-- The selection predicate as the spec words it: `fetch` (transcript) →
`transcript_downloaded=false`; `render` (markdown) →
`transcript_downloaded=true ∧ markdown_generated=false`; `summarize`
(summary) → `markdown_generated=true ∧ summarized=false`.  Stated
independently of the code's if/elif chain, for comparison with it. -/
def specStagePred (stage : String) (v : VideoEntry) : Bool :=
  if stage = "transcript" then !v.status.transcript_downloaded
  else if stage = "markdown" then
    v.status.transcript_downloaded && !v.status.markdown_generated
  else if stage = "summary" then
    v.status.markdown_generated && !v.status.summarized
  else false

theorem pendingPred_eq_spec (need : String) (v : VideoEntry) :
    pendingPred need v = specStagePred need v := by
  unfold pendingPred specStagePred
  by_cases h1 : need = "transcript"
  · simp [h1]
  · by_cases h2 : need = "markdown"
    · simp [h1, h2]
    · by_cases h3 : need = "summary"
      · simp [h1, h2, h3]
      · simp [h1, h2, h3]

instance : IsTrans VideoEntry keyLe := by
  constructor
  intro a b c hab hbc
  cases hab with
  | inl h1 =>
      cases hbc with
      | inl h2 => exact Or.inl (lt_trans h1 h2)
      | inr h2 => exact Or.inl (h2.1 ▸ h1)
  | inr h1 =>
      cases hbc with
      | inl h2 => exact Or.inl (h1.1 ▸ h2)
      | inr h2 => exact Or.inr ⟨h1.1.trans h2.1, le_trans h1.2 h2.2⟩

instance : IsTotal VideoEntry keyLe := by
  constructor
  intro a b
  rcases lt_trichotomy a.published_at b.published_at with h | h | h
  · exact Or.inl (Or.inl h)
  · rcases le_total a.title b.title with ht | ht
    · exact Or.inl (Or.inr ⟨h, ht⟩)
    · exact Or.inr (Or.inr ⟨h.symm, ht⟩)
  · exact Or.inr (Or.inl h)

/-- C7: `list_pending` returns exactly the entries satisfying the stage's
predicate (as a permutation of the filtered value list), sorted ascending by
`published_at` with ties broken by `title`, hence a deterministic order. -/
theorem C7_list_pending_spec (reg : AntennaRegistry) (need : String) :
    (list_pending reg need).Perm
        ((reg.videos.map (fun p => p.2)).filter (specStagePred need)) ∧
      (list_pending reg need).Sorted keyLe := by
  constructor
  · have hfil : (reg.videos.map (fun p => p.2)).filter (pendingPred need) =
        (reg.videos.map (fun p => p.2)).filter (specStagePred need) := by
      apply List.filter_congr
      intro x _
      exact pendingPred_eq_spec need x
    have hperm := List.perm_insertionSort keyLe
      ((reg.videos.map (fun p => p.2)).filter (pendingPred need))
    unfold list_pending
    exact hfil ▸ hperm
  · exact List.sorted_insertionSort keyLe _

/-! ### Claim C5 -/

/-- C5: when the first attempt classifies the failure as
permanent/definitive absence (transcripts disabled, no transcript found,
video unavailable), `fetch_transcript_text` returns the absence triple right
after that single attempt: one internal invocation, no retry sleep (only the
constant pre-request base delay), and nothing further is consulted. -/
theorem C5_terminal_absence_single_attempt (oracle : Nat → ListingOutcome)
    (langs : List String) (maxR : Nat) (initial : ℚ)
    (h : oracle 0 = .transcriptsDisabled ∨ oracle 0 = .noTranscriptFound ∨
      oracle 0 = .videoUnavailable) :
    fetch_transcript_text oracle langs maxR initial = ⟨none, 1, [BASE_DELAY]⟩ := by
  rcases h with h | h | h <;>
    simp [fetch_transcript_text, fetchGo, fetch_transcript_internal, h]

theorem C5_witness :
    fetch_transcript_text (fun _ => .transcriptsDisabled) ["en"] 3 5 =
      ⟨none, 1, [BASE_DELAY]⟩ :=
  C5_terminal_absence_single_attempt (fun _ => .transcriptsDisabled) ["en"] 3 5
    (Or.inl rfl)

/-! ### Claim C8 -/

theorem fetchGo_all_blocked (oracle : Nat → ListingOutcome) (langs : List String)
    (maxR : Nat) :
    ∀ (fuel attempt : Nat) (delay : ℚ) (sleeps : List ℚ) (attempts : Nat),
      attempt + fuel = maxR + 1 →
      (∀ i, i ≤ maxR → oracle i = .blocked) →
      (fetchGo oracle langs maxR fuel attempt delay sleeps attempts).result = none ∧
        (fetchGo oracle langs maxR fuel attempt delay sleeps attempts).attempts =
          attempts + fuel := by
  intro fuel
  induction fuel with
  | zero =>
      intro attempt delay sleeps attempts hsum hblocked
      simp [fetchGo]
  | succ fuel ih =>
      intro attempt delay sleeps attempts hsum hblocked
      have hatt : attempt ≤ maxR := by omega
      have hb := hblocked attempt hatt
      rw [fetchGo, hb]
      dsimp only [fetch_transcript_internal]
      by_cases hlt : attempt < maxR
      · rw [if_pos hlt]
        constructor
        · exact (ih (attempt + 1) _ _ (attempts + 1) (by omega) hblocked).1
        · rw [(ih (attempt + 1) _ _ (attempts + 1) (by omega) hblocked).2]
          omega
      · have hfe : fuel = 0 := by omega
        subst hfe
        rw [if_neg hlt]
        exact ⟨rfl, rfl⟩

/-- C8: when every attempt observes a transient access block,
`fetch_transcript_text` performs exactly `max_retries + 1` attempts and then
returns the absence triple `(None, None, None)` as an ordinary value — the
block is absorbed, no exception escapes (the model is a total function). -/
theorem C8_blocked_exhaustion_absorbed (oracle : Nat → ListingOutcome)
    (langs : List String) (maxR : Nat) (initial : ℚ)
    (h : ∀ i, i ≤ maxR → oracle i = .blocked) :
    (fetch_transcript_text oracle langs maxR initial).result = none ∧
      (fetch_transcript_text oracle langs maxR initial).attempts = maxR + 1 := by
  have hmain :=
    fetchGo_all_blocked oracle langs maxR (maxR + 1) 0 initial [] 0 (by omega) h
  unfold fetch_transcript_text
  exact ⟨hmain.1, by rw [hmain.2]; omega⟩

theorem C8_witness :
    (fetch_transcript_text (fun _ => .blocked) ["en"] 3 5).result = none ∧
      (fetch_transcript_text (fun _ => .blocked) ["en"] 3 5).attempts = 3 + 1 :=
  C8_blocked_exhaustion_absorbed (fun _ => .blocked) ["en"] 3 5 (fun _ _ => rfl)

/-! ### Claim C4 -/

/-- From any iteration with `attempt ≥ 1` on, the sleeps the retry loop
appends sum to at most `delay * (2 ^ fuel - 1)` and each one is at most
`max delay MAX_DELAY`. -/
theorem fetchGo_sleeps_extra (oracle : Nat → ListingOutcome) (langs : List String)
    (maxR : Nat) :
    ∀ (fuel attempt : Nat) (delay : ℚ) (sleeps : List ℚ) (attempts : Nat),
      0 ≤ delay → 1 ≤ attempt →
      ∃ extra,
        (fetchGo oracle langs maxR fuel attempt delay sleeps attempts).sleeps =
            sleeps ++ extra ∧
          extra.sum ≤ delay * (2 ^ fuel - 1) ∧
          ∀ d ∈ extra, d ≤ max delay MAX_DELAY := by
  intro fuel
  induction fuel with
  | zero =>
      intro attempt delay sleeps attempts hd ha
      refine ⟨[], by simp [fetchGo], by simp, by simp⟩
  | succ fuel ih =>
      intro attempt delay sleeps attempts hd ha
      have hatt0 : (attempt == 0) = false := by
        simp only [beq_eq_false_iff_ne, ne_eq]
        omega
      have h2f : (1 : ℚ) ≤ 2 ^ fuel := by
        exact_mod_cast Nat.one_le_two_pow
      have h2f1 : (1 : ℚ) ≤ 2 ^ (fuel + 1) - 1 := by
        rw [pow_succ]
        nlinarith
      have hsingle : ∃ extra,
          sleeps ++ [delay] = sleeps ++ extra ∧
            extra.sum ≤ delay * (2 ^ (fuel + 1) - 1) ∧
            ∀ d ∈ extra, d ≤ max delay MAX_DELAY := by
        refine ⟨[delay], rfl, ?_, ?_⟩
        · have := mul_le_mul_of_nonneg_left h2f1 hd
          simpa using this
        · intro d hdm
          rw [List.mem_singleton] at hdm
          subst hdm
          exact le_max_left _ _
      rw [fetchGo]
      simp only [hatt0, Bool.false_eq_true, if_false]
      cases hi : fetch_transcript_internal (oracle attempt) langs with
      | returned r => exact hsingle
      | raisedBlock =>
          by_cases hlt : attempt < maxR
          · rw [if_pos hlt]
            have hd2 : (0 : ℚ) ≤ min (delay * BACKOFF_MULTIPLIER) MAX_DELAY := by
              refine le_min ?_ ?_
              · have : (0 : ℚ) ≤ BACKOFF_MULTIPLIER := by norm_num [BACKOFF_MULTIPLIER]
                exact mul_nonneg hd this
              · norm_num [MAX_DELAY]
            obtain ⟨extra2, hs, hsum, hcap⟩ :=
              ih (attempt + 1) (min (delay * BACKOFF_MULTIPLIER) MAX_DELAY)
                (sleeps ++ [delay]) (attempts + 1) hd2 (by omega)
            refine ⟨delay :: extra2, ?_, ?_, ?_⟩
            · rw [hs, List.append_assoc, List.singleton_append]
            · have hmin : min (delay * BACKOFF_MULTIPLIER) MAX_DELAY ≤ delay * 2 := by
                have hml := min_le_left (delay * BACKOFF_MULTIPLIER) MAX_DELAY
                rw [BACKOFF_MULTIPLIER] at hml
                exact hml
              have hf0 : (0 : ℚ) ≤ 2 ^ fuel - 1 := by linarith
              have hstep : min (delay * BACKOFF_MULTIPLIER) MAX_DELAY * (2 ^ fuel - 1) ≤
                  delay * 2 * (2 ^ fuel - 1) :=
                mul_le_mul_of_nonneg_right hmin hf0
              have hsum2 : extra2.sum ≤ delay * 2 * (2 ^ fuel - 1) :=
                le_trans hsum hstep
              have hfin : delay + delay * 2 * (2 ^ fuel - 1) =
                  delay * (2 ^ (fuel + 1) - 1) := by
                rw [pow_succ]
                ring
              calc (delay :: extra2).sum = delay + extra2.sum := by
                    rw [List.sum_cons]
                _ ≤ delay + delay * 2 * (2 ^ fuel - 1) := by linarith
                _ = delay * (2 ^ (fuel + 1) - 1) := hfin
            · intro d hdm
              rw [List.mem_cons] at hdm
              cases hdm with
              | inl hh => subst hh; exact le_max_left _ _
              | inr hh =>
                  have h1 := hcap d hh
                  have h2 : max (min (delay * BACKOFF_MULTIPLIER) MAX_DELAY) MAX_DELAY ≤
                      max delay MAX_DELAY :=
                    max_le (le_trans (min_le_right _ _) (le_max_right _ _))
                      (le_max_right _ _)
                  exact le_trans h1 h2
          · rw [if_neg hlt]
            exact hsingle

/-- C4 counterexample: with the default parameters
(`initial_delay=5`, `max_retries=3`, block on every attempt) the total
pre-jitter sleep of `fetch_transcript_text` is 37 seconds — the constant 2s
pre-request delay of the first attempt plus the 5+10+20 backoff — and not
bounded by the claimed 35 seconds. -/
theorem C4_counterexample :
    (fetch_transcript_text (fun _ => .blocked) ["en"] 3 5).sleeps.sum = 37 ∧
      ¬((fetch_transcript_text (fun _ => .blocked) ["en"] 3 5).sleeps.sum ≤ 35) := by
  have h : (fetch_transcript_text (fun _ => .blocked) ["en"] 3 5).sleeps =
      [2, 5, 10, 20] := by
    norm_num [fetch_transcript_text, fetchGo, fetch_transcript_internal, BASE_DELAY,
      MAX_DELAY, BACKOFF_MULTIPLIER, min_def]
  rw [h]
  norm_num

/-- C4 (amended): the retry backoff sleeps — the sleeps after the constant
pre-request base delay of the first attempt — total at most
`initial_delay * (multiplier ^ max_retries - 1) / (multiplier - 1)` (with
multiplier 2 this is `initial_delay * (2 ^ max_retries - 1)`), each single
backoff sleep is at most `max initial_delay ceiling`, and the whole run
sleeps at most `BASE_DELAY` more than that bound; with the defaults
`initial_delay=5, max_retries=3` the backoff total is at most 35 s and the
whole run sleeps at most 37 s before jitter. -/
theorem C4_backoff_total_bound (oracle : Nat → ListingOutcome) (langs : List String)
    (maxR : Nat) (initial : ℚ) (h : 0 ≤ initial) :
    ((fetch_transcript_text oracle langs maxR initial).sleeps.tail).sum ≤
        initial * (2 ^ maxR - 1) ∧
      (fetch_transcript_text oracle langs maxR initial).sleeps.sum ≤
        BASE_DELAY + initial * (2 ^ maxR - 1) ∧
      ∀ d ∈ (fetch_transcript_text oracle langs maxR initial).sleeps.tail,
        d ≤ max initial MAX_DELAY := by
  have h2f : (1 : ℚ) ≤ 2 ^ maxR := by
    exact_mod_cast Nat.one_le_two_pow
  have hnn : (0 : ℚ) ≤ initial * (2 ^ maxR - 1) := by
    have : (0 : ℚ) ≤ 2 ^ maxR - 1 := by linarith
    exact mul_nonneg h this
  unfold fetch_transcript_text
  rw [fetchGo]
  simp only [beq_self_eq_true, if_true, List.nil_append]
  cases hi : fetch_transcript_internal (oracle 0) langs with
  | returned r =>
      refine ⟨by simpa using hnn, ?_, by simp⟩
      simp [BASE_DELAY]
      linarith
  | raisedBlock =>
      by_cases hlt : 0 < maxR
      · rw [if_pos hlt]
        obtain ⟨extra, hs, hsum, hcap⟩ :=
          fetchGo_sleeps_extra oracle langs maxR maxR 1 initial [BASE_DELAY] 1 h
            (by omega)
        rw [hs]
        refine ⟨?_, ?_, ?_⟩
        · simpa using hsum
        · have : (BASE_DELAY :: extra).sum = BASE_DELAY + extra.sum := by
            rw [List.sum_cons]
          simpa [this] using hsum
        · intro d hdm
          simp only [List.cons_append, List.nil_append, List.tail_cons] at hdm
          exact hcap d hdm
      · rw [if_neg hlt]
        refine ⟨by simpa using hnn, ?_, by simp⟩
        simp [BASE_DELAY]
        linarith

theorem C4_witness :
    (0 : ℚ) ≤ 5 ∧
      ((fetch_transcript_text (fun _ => .blocked) ["en"] 3 5).sleeps.tail).sum ≤
        5 * (2 ^ 3 - 1) ∧
      (fetch_transcript_text (fun _ => .blocked) ["en"] 3 5).sleeps.sum ≤
        BASE_DELAY + 5 * (2 ^ 3 - 1) :=
  ⟨by norm_num,
    (C4_backoff_total_bound (fun _ => .blocked) ["en"] 3 5 (by norm_num)).1,
    (C4_backoff_total_bound (fun _ => .blocked) ["en"] 3 5 (by norm_num)).2.1⟩

/-! ### Claim C9 -/

theorem findSome?_congr {α β : Type} {f g : α → Option β} :
    ∀ {l : List α}, (∀ a ∈ l, f a = g a) → l.findSome? f = l.findSome? g := by
  intro l
  induction l with
  | nil => intro _; rfl
  | cons a tl ih =>
      intro h
      have ha := h a (List.mem_cons_self a tl)
      simp only [List.findSome?]
      rw [ha]
      cases g a with
      | some b => rfl
      | none => exact ih (fun x hx => h x (List.mem_cons_of_mem a hx))

theorem findSome?_eq_none_forall {α β : Type} {f : α → Option β} :
    ∀ {l : List α}, l.findSome? f = none → ∀ a ∈ l, f a = none := by
  intro l
  induction l with
  | nil => intro _ a ha; cases ha
  | cons a tl ih =>
      intro h x hx
      simp only [List.findSome?] at h
      cases hfa : f a with
      | some b => rw [hfa] at h; cases h
      | none =>
          rw [hfa] at h
          cases hx with
          | head => exact hfa
          | tail _ hmem => exact ih h x hmem

/-- The payload-selection preference order as the spec words it: a
manually-authored variant in a preferred language (in caller order), then an
auto-generated variant in a preferred language (same order), then any
available variant with manually-authored preferred over generated.  Stated
independently of the code, for comparison with `fetchFromList`. -/
def specPreferenceSelection (tl : TranscriptList) (languages : List String) :
    Option (String × String × String) :=
  match languages.findSome? (fun code =>
      (findVariant tl.manual code).map (fun t => (t.text, "manual", t.language_code))) with
  | some r => some r
  | none =>
    match languages.findSome? (fun code =>
        (findVariant tl.generated code).map
          (fun t => (t.text, "auto-generated", t.language_code))) with
    | some r => some r
    | none =>
      match tl.manual with
      | t :: _ => some (t.text, "manual", t.language_code)
      | [] =>
        match tl.generated with
        | t :: _ => some (t.text, "auto-generated", t.language_code)
        | [] => none

theorem step1_eq (tl : TranscriptList) (langs : List String) :
    (langs.findSome? (fun code =>
        match findManualTranscript tl code with
        | none => none
        | some t => (apiFetchText tl code).map (fun x => (x, "manual", t.language_code)))) =
      langs.findSome? (fun code =>
        (findVariant tl.manual code).map (fun t => (t.text, "manual", t.language_code))) := by
  apply findSome?_congr
  intro code _
  cases hm : findVariant tl.manual code with
  | none => simp [findManualTranscript, hm]
  | some t => simp [findManualTranscript, hm, apiFetchText]

theorem step2_eq (tl : TranscriptList) (langs : List String)
    (hman : ∀ code ∈ langs, findVariant tl.manual code = none) :
    (langs.findSome? (fun code =>
        match findGeneratedTranscript tl code with
        | none => none
        | some t =>
            (apiFetchText tl code).map (fun x => (x, "auto-generated", t.language_code)))) =
      langs.findSome? (fun code =>
        (findVariant tl.generated code).map
          (fun t => (t.text, "auto-generated", t.language_code))) := by
  apply findSome?_congr
  intro code hc
  cases hg : findVariant tl.generated code with
  | none => simp [findGeneratedTranscript, hg]
  | some t => simp [findGeneratedTranscript, hg, apiFetchText, hman code hc]

/-- The code's selection equals the spec's preference order. -/
theorem fetchFromList_eq_spec (tl : TranscriptList) (langs : List String) :
    fetchFromList tl langs = specPreferenceSelection tl langs := by
  unfold fetchFromList specPreferenceSelection
  rw [step1_eq]
  cases h1 : langs.findSome? (fun code =>
      (findVariant tl.manual code).map (fun t => (t.text, "manual", t.language_code))) with
  | some r => rfl
  | none =>
      dsimp only
      have hman : ∀ code ∈ langs, findVariant tl.manual code = none := by
        intro code hc
        have := findSome?_eq_none_forall h1 code hc
        cases hm : findVariant tl.manual code with
        | none => rfl
        | some t => rw [hm] at this; cases this
      rw [step2_eq tl langs hman]
      cases h2 : langs.findSome? (fun code =>
          (findVariant tl.generated code).map
            (fun t => (t.text, "auto-generated", t.language_code))) with
      | some r => rfl
      | none =>
          dsimp only
          cases hm : tl.manual with
          | cons m rest =>
              have hfind : findVariant (m :: rest) m.language_code = some m := by
                simp [findVariant, List.find?]
              simp [listingOrder, hm, List.findSome?, apiFetchText, hfind]
          | nil =>
              cases hg : tl.generated with
              | nil => simp [listingOrder, hm, hg]
              | cons g rest =>
                  have hfindm : findVariant ([] : List TranscriptVariant)
                      g.language_code = none := rfl
                  have hfind : findVariant (g :: rest) g.language_code = some g := by
                    simp [findVariant, List.find?]
                  simp [listingOrder, hm, hg, List.findSome?, apiFetchText, hfindm, hfind]

theorem specPreferenceSelection_isSome (tl : TranscriptList) (langs : List String)
    (h : tl.manual ++ tl.generated ≠ []) :
    (specPreferenceSelection tl langs).isSome = true := by
  unfold specPreferenceSelection
  cases h1 : langs.findSome? (fun code =>
      (findVariant tl.manual code).map (fun t => (t.text, "manual", t.language_code))) with
  | some r => rfl
  | none =>
      dsimp only
      cases h2 : langs.findSome? (fun code =>
          (findVariant tl.generated code).map
            (fun t => (t.text, "auto-generated", t.language_code))) with
      | some r => rfl
      | none =>
          dsimp only
          cases hm : tl.manual with
          | cons m rest => rfl
          | nil =>
              cases hg : tl.generated with
              | cons g rest => rfl
              | nil =>
                  exfalso
                  apply h
                  rw [hm, hg]
                  rfl

/-- C9: whenever at least one transcript variant is available, the internal
fetch succeeds and selects the payload in the spec's preference order:
manual variant in a preferred language (caller order), then generated
variant in a preferred language (same order), then any variant with manual
preferred over generated (the listing iterates manual variants first). -/
theorem C9_variant_preference_order (tl : TranscriptList) (langs : List String)
    (h : tl.manual ++ tl.generated ≠ []) :
    fetchFromList tl langs = specPreferenceSelection tl langs ∧
      (fetchFromList tl langs).isSome = true := by
  refine ⟨fetchFromList_eq_spec tl langs, ?_⟩
  rw [fetchFromList_eq_spec tl langs]
  exact specPreferenceSelection_isSome tl langs h

/-- A two-variant listing for the concrete C9 witness. -/
def wTL : TranscriptList :=
  { manual := [{ language_code := "fr", text := "mfr" }],
    generated := [{ language_code := "en", text := "gen" }] }

theorem C9_witness :
    wTL.manual ++ wTL.generated ≠ [] ∧
      (fetchFromList wTL ["en", "fr"] = specPreferenceSelection wTL ["en", "fr"] ∧
        (fetchFromList wTL ["en", "fr"]).isSome = true) :=
  ⟨by decide, C9_variant_preference_order wTL ["en", "fr"] (by decide)⟩

/-! ### Claim C2 -/

theorem String.join_cons_eq (c : String) (tl : List String) :
    String.join (c :: tl) = c ++ String.join tl := by
  apply String.ext
  simp [String.data_append]

/-- A run of steps none of which is the rename leaves the canonical file
untouched. -/
theorem canonical_of_no_rename :
    ∀ (p : List WriteStep) (s : FSState),
      (∀ st ∈ p, st ≠ WriteStep.renameTempToTarget) →
      (runSteps s p).canonical = s.canonical := by
  intro p
  induction p with
  | nil => intro s _; rfl
  | cons st tl ih =>
      intro s h
      have hst := h st (List.mem_cons_self _ _)
      have hcan : (applyStep s st).canonical = s.canonical := by
        cases st
        · rfl
        · rfl
        · rfl
        · rfl
        · exact absurd rfl hst
      have := ih (applyStep s st) (fun x hx => h x (List.mem_cons_of_mem st hx))
      simpa [runSteps, List.foldl_cons, hcan] using this

/-- Folding the chunk writes appends the full image to the temp file and
leaves the canonical file untouched. -/
theorem foldl_chunks :
    ∀ (chunks : List String) (s : FSState) (acc : String), s.temp = some acc →
      (chunks.map WriteStep.writeChunk).foldl applyStep s =
        { canonical := s.canonical, temp := some (acc ++ String.join chunks) } := by
  intro chunks
  induction chunks with
  | nil =>
      intro s acc h
      obtain ⟨can, tmp⟩ := s
      simp only [List.map_nil, List.foldl_nil]
      simp only at h
      rw [h]
      have : acc ++ String.join [] = acc := by
        apply String.ext
        simp [String.data_append]
      rw [this]
  | cons c tl ih =>
      intro s acc h
      simp only [List.map_cons, List.foldl_cons]
      have htmp : (applyStep s (WriteStep.writeChunk c)).temp = some (acc ++ c) := by
        simp [applyStep, h]
      rw [ih (applyStep s (.writeChunk c)) (acc ++ c) htmp]
      have hcan : (applyStep s (WriteStep.writeChunk c)).canonical = s.canonical := rfl
      rw [hcan]
      have : (acc ++ c) ++ String.join tl = acc ++ String.join (c :: tl) := by
        rw [String.join_cons_eq]
        apply String.ext
        simp [String.data_append]
      rw [this]

/-- Running the whole trace installs exactly the full image under the
canonical name. -/
theorem runSteps_full (s0 : FSState) (chunks : List String) :
    runSteps s0 (atomicWriteSteps chunks) =
      { canonical := some (String.join chunks), temp := none } := by
  unfold atomicWriteSteps runSteps
  rw [List.append_assoc, List.foldl_append, List.foldl_append]
  have h0 : ([WriteStep.mkdirParent, WriteStep.openTemp].foldl applyStep s0).temp =
      some "" := rfl
  rw [foldl_chunks chunks _ "" h0]
  have : ("" : String) ++ String.join chunks = String.join chunks := by
    apply String.ext
    simp [String.data_append]
  rw [this]
  rfl

/-- The only rename in the trace is its very last step. -/
theorem atomicWriteSteps_split (chunks : List String) :
    atomicWriteSteps chunks =
      ([WriteStep.mkdirParent, WriteStep.openTemp] ++
        chunks.map WriteStep.writeChunk ++ [WriteStep.fsyncTemp]) ++
        [WriteStep.renameTempToTarget] := by
  unfold atomicWriteSteps
  simp

theorem front_no_rename (chunks : List String) :
    ∀ st ∈ ([WriteStep.mkdirParent, WriteStep.openTemp] ++
        chunks.map WriteStep.writeChunk ++ [WriteStep.fsyncTemp]),
      st ≠ WriteStep.renameTempToTarget := by
  intro st hst hc
  subst hc
  simp [List.mem_append, List.mem_map] at hst

/-- C2: `_atomic_write_json` is crash-atomic.  For every split of its step
trace into an executed part `p` and an unexecuted part `q` (a crash after
`p`), the canonical file holds either the complete old image or the complete
new image, and after the full trace it holds exactly the new image.  Only
the final atomic rename — which follows the temp write and the fsync —
changes the canonical file. -/
theorem C2_atomic_write_crash_safe (s0 : FSState) (chunks : List String)
    (p q : List WriteStep) (hsplit : atomicWriteSteps chunks = p ++ q) :
    ((runSteps s0 p).canonical = s0.canonical ∨
        (runSteps s0 p).canonical = some (String.join chunks)) ∧
      (runSteps s0 (atomicWriteSteps chunks)).canonical = some (String.join chunks) := by
  have hfull : (runSteps s0 (atomicWriteSteps chunks)).canonical =
      some (String.join chunks) := by
    rw [runSteps_full]
  refine ⟨?_, hfull⟩
  rcases List.eq_nil_or_concat q with hq | ⟨q2, last, hq⟩
  · subst hq
    rw [List.append_nil] at hsplit
    rw [← hsplit]
    exact Or.inr hfull
  · -- the crash cuts the trace strictly before its end, so the executed
    -- part is contained in the rename-free front
    subst hq
    have hsplit2 : atomicWriteSteps chunks = (p ++ q2) ++ [last] := by
      rw [hsplit, List.concat_eq_append, List.append_assoc]
    rw [atomicWriteSteps_split chunks] at hsplit2
    have hfronts := List.append_inj_left' hsplit2.symm rfl
    have hsub : ∀ st ∈ p, st ≠ WriteStep.renameTempToTarget := by
      intro st hst
      apply front_no_rename chunks
      rw [← hfronts]
      exact List.mem_append.mpr (Or.inl hst)
    exact Or.inl (canonical_of_no_rename p s0 hsub)

theorem C2_witness :
    atomicWriteSteps ["ab", "cd"] =
        [WriteStep.mkdirParent, WriteStep.openTemp] ++
          [WriteStep.writeChunk "ab", WriteStep.writeChunk "cd",
            WriteStep.fsyncTemp, WriteStep.renameTempToTarget] ∧
      (((runSteps { canonical := some "old", temp := none }
            [WriteStep.mkdirParent, WriteStep.openTemp]).canonical =
          some "old" ∨
        (runSteps { canonical := some "old", temp := none }
            [WriteStep.mkdirParent, WriteStep.openTemp]).canonical =
          some (String.join ["ab", "cd"])) ∧
        (runSteps { canonical := some "old", temp := none }
            (atomicWriteSteps ["ab", "cd"])).canonical =
          some (String.join ["ab", "cd"])) :=
  ⟨by decide,
    C2_atomic_write_crash_safe { canonical := some "old", temp := none } ["ab", "cd"]
      [WriteStep.mkdirParent, WriteStep.openTemp]
      [WriteStep.writeChunk "ab", WriteStep.writeChunk "cd", WriteStep.fsyncTemp,
        WriteStep.renameTempToTarget]
      (by decide)⟩

end YTLib
